import Mathlib

/-!
Verification development for the csswaf reverse proxy (Go sources).

The embedding models the session-tracking core of the program:

* `SessionTracker` with its three TTL caches (`sequences`, `expected`,
  `validated`), created by `NewSessionTracker` with the library options
  `WithTTL(ttl)` and `WithDisableTouchOnHit` on each cache.  A cache is
  modelled as a function from keys to an optional pair of a value and an
  absolute expiry instant; time is an explicit `Nat` parameter `now` of
  every operation.  `Set` writes an entry with expiry `now + ttl`
  (`ttlcache.DefaultTTL`); `Get` returns the value of a live entry and,
  because the caches are built with `WithDisableTouchOnHit`, leaves the
  entry untouched unless the `touchOnHit` configuration bit is set.  An
  entry is live while `now < expiry`; the instant of expiry itself is
  modelled as already expired.
* the tracker operations `AddImageLoad`, `SetExpectedSequence`,
  `IsValidated` translated statement by statement from the source.
  Logging statements (including the `sessionID[:8]` slice, which in Go
  requires session ids of at least 8 bytes) are omitted; concrete session
  ids used below are at least 8 characters long so that every evaluated
  run corresponds to a real execution.
* `shuffle`, with the permutation drawn by `mathrand.Perm` passed in as
  an explicit argument, the HTTP routing logic of `ServeHTTP`, the
  tracking-image handler, and the keyframe-rule generation of
  `renderWafResponse`.
-/

/-- Honeypot image labels, from the source (`HoneypotImg`). -/
def HoneypotImg : List String :=
  ["G.html", "H.txt", "I.sitemap", "J.xml", "article", "content", "user",
   "history", "O", "P", "Q"]

/-- Canonical tracking labels, from the source (`Sequence`). -/
def Sequence : List String := ["A", "B", "C", "D", "E", "F"]

/-- A TTL-cache entry: value together with its absolute expiry instant. -/
abbrev Entry (α : Type) : Type := Option (α × Nat)

/-- A TTL cache body: keys to entries. -/
abbrev CacheMap (α : Type) : Type := String → Entry α

/-- Write an entry (the `Set` operation body): the key now maps to the value
with the given expiry, all other keys are unchanged. -/
def mapSet (m : CacheMap α) (k : String) (v : α) (exp : Nat) : CacheMap α :=
  fun k' => if k' = k then some (v, exp) else m k'

/-- The `Get` operation of the TTL cache: a live entry (`now < expiry`)
yields its value; when the cache was built with touch-on-hit enabled the
hit also renews the entry to a full TTL, otherwise (the configuration the
program always uses, `WithDisableTouchOnHit`) the cache is unchanged.
Expired or absent entries yield `none` and leave the cache unchanged. -/
def getEntry (ttl : Nat) (touch : Bool) (m : CacheMap α) (k : String)
    (now : Nat) : Option α × CacheMap α :=
  match m k with
  | none => (none, m)
  | some (v, exp) =>
    if now < exp then
      (some v, if touch then mapSet m k v (now + ttl) else m)
    else (none, m)

/-- The session tracker: three TTL caches sharing the configured `ttl`
and the touch-on-hit configuration bit (`false` in the program, since
`NewSessionTracker` builds all three caches with `WithDisableTouchOnHit`). -/
structure SessionTracker where
  sequences : CacheMap (List String)
  expected : CacheMap (List String)
  validated : CacheMap Bool
  ttl : Nat
  touchOnHit : Bool

/-- `NewSessionTracker`: three empty caches with the given TTL and
touch-on-hit disabled.  The background sweep goroutines only remove dead
entries, which `getEntry` already treats as absent, so they need no
explicit model. -/
def NewSessionTracker (ttl : Nat) : SessionTracker :=
  { sequences := fun _ => none
    expected := fun _ => none
    validated := fun _ => none
    ttl := ttl
    touchOnHit := false }

/-- The elementwise comparison loop of `AddImageLoad` (source lines 99-105).
The loop runs over the indices of `sequence` and fails at the first index
where the two slices differ; at its single call site both slices have
equal length, so it is the elementwise equality of the zipped lists. -/
def seqMatch (sequence expectedSeq : List String) : Bool :=
  (sequence.zip expectedSeq).all fun p => p.1 == p.2

namespace SessionTracker

/-- First half of `AddImageLoad`: the atomic `Get` on the `sequences`
cache, yielding the local `sequence` variable (`nil` read as the empty
list, since appending to a nil Go slice starts from empty) and the
tracker after the read. -/
def addImageLoadRead (st : SessionTracker) (sessionID : String) (now : Nat) :
    List String × SessionTracker :=
  let r := getEntry st.ttl st.touchOnHit st.sequences sessionID now
  (r.1.getD [], { st with sequences := r.2 })

/-- Second half of `AddImageLoad`, everything after the initial read,
operating on the local `sequence` value: the honeypot check and poison
write, or the append, the `sequences` write, the `expected` read and the
boundary comparison writing `validated`. -/
def addImageLoadRest (st : SessionTracker) (sessionID imageID : String)
    (sequence : List String) (now : Nat) : SessionTracker :=
  if imageID ∈ HoneypotImg then
    let poisoned := mapSet st.sequences sessionID ["Honeypot_placeholder"] (now + st.ttl)
    { st with sequences := poisoned }
  else
    let sequence' := sequence ++ [imageID]
    let written := mapSet st.sequences sessionID sequence' (now + st.ttl)
    let st' := { st with sequences := written }
    let r := getEntry st'.ttl st'.touchOnHit st'.expected sessionID now
    match r.1 with
    | some expectedSeq =>
      if sequence'.length = expectedSeq.length then
        let verdict := mapSet st'.validated sessionID (seqMatch sequence' expectedSeq) (now + st'.ttl)
        { st' with expected := r.2, validated := verdict }
      else { st' with expected := r.2 }
    | none => { st' with expected := r.2 }

/-- `AddImageLoad` records an image load for a session: the read followed
by the rest of the body.  In the source the two cache operations are
individually atomic but no lock is held across them. -/
def AddImageLoad (st : SessionTracker) (sessionID imageID : String)
    (now : Nat) : SessionTracker :=
  let r := st.addImageLoadRead sessionID now
  addImageLoadRest r.2 sessionID imageID r.1 now

/-- `SetExpectedSequence` stores the expected sequence and resets the
observed sequence to empty, both with a full TTL.  It does not write the
`validated` cache. -/
def SetExpectedSequence (st : SessionTracker) (sessionID : String)
    (sequence : List String) (now : Nat) : SessionTracker :=
  { st with
    expected := mapSet st.expected sessionID sequence (now + st.ttl)
    sequences := mapSet st.sequences sessionID [] (now + st.ttl) }

/-- `IsValidated` reads the `validated` cache, returning `false` for an
absent (or expired) entry, together with the tracker after the read. -/
def IsValidated (st : SessionTracker) (sessionID : String) (now : Nat) :
    Bool × SessionTracker :=
  let r := getEntry st.ttl st.touchOnHit st.validated sessionID now
  (r.1.getD false, { st with validated := r.2 })

end SessionTracker

/-- Run a list of `AddImageLoad` events `(imageID, time)` for one session. -/
def runAdds (st : SessionTracker) (sessionID : String) :
    List (String × Nat) → SessionTracker
  | [] => st
  | e :: rest => runAdds (st.AddImageLoad sessionID e.1 e.2) sessionID rest

/-- The simultaneous Go assignment `input[v], input[i] = input[i], input[v]`
of `shuffle`: position `v` receives the old value at `i` and position `i`
the old value at `v`. -/
def swapPositions (l : List String) (i v : Nat) : List String :=
  let a := l.getD i ""
  let b := l.getD v ""
  (l.set v a).set i b

/-- The loop of `shuffle`: `for i, v := range perm` applies the swap at
`(i, v)` for `i = 0, 1, ...`. -/
def shuffleAux : List Nat → Nat → List String → List String
  | [], _, l => l
  | v :: rest, i, l => shuffleAux rest (i + 1) (swapPositions l i v)

/-- `shuffle`, with the random permutation drawn by `mathrand.Perm(len(input))`
passed in explicitly: `perm` is a permutation of `0, ..., len(input) - 1`
chosen uniformly at random by the library. -/
def shuffle (perm : List Nat) (input : List String) : List String :=
  shuffleAux perm 0 input

/-- Substring search over character lists, the semantics of Go
`strings.Contains` (second argument is the pattern). -/
def containsSubList (pat : List Char) : List Char → Bool
  | [] => pat.isEmpty
  | c :: rest => pat.isPrefixOf (c :: rest) || containsSubList pat rest

/-- Go `strings.Contains s pat`. -/
def containsSubstring (s pat : String) : Bool :=
  containsSubList pat.toList s.toList

/-- Go `strings.HasPrefix s pre`, character-wise. -/
def hasPrefixB (s pre : String) : Bool := pre.toList.isPrefixOf s.toList

/-- Go `strings.HasSuffix s suf`, character-wise. -/
def hasSuffixB (s suf : String) : Bool := suf.toList.isSuffixOf s.toList

/-- Go `strings.ToLower`, restricted to the ASCII case mapping (the only
case the program distinguishes: its patterns are ASCII). -/
def lowerStr (s : String) : String := String.mk (s.toList.map Char.toLower)

/-- Go `strings.Split s "/"`. -/
def splitOnSlash : List Char → List (List Char)
  | [] => [[]]
  | c :: rest =>
    if c = '/' then [] :: splitOnSlash rest
    else
      match splitOnSlash rest with
      | [] => [[c]]
      | p :: ps => (c :: p) :: ps

/-- Where `ServeHTTP` sends a request. -/
inductive Route
  | resHandler
  | imageHandler
  | proxy
  | challenge
deriving DecidableEq, Repr

/-- The rss/feed/atom test of `ServeHTTP`, applied to the lower-cased path. -/
def feedLike (pathLow : String) : Bool :=
  containsSubstring pathLow "rss" || containsSubstring pathLow "feed"
    || containsSubstring pathLow "atom"

/-- The routing decisions of `ServeHTTP`, in source order: the
`/_csswaf/res/` branch, the `/_csswaf/img/` branch, the non-Mozilla
user-agent bypass, the rss/feed/atom bypass, the `.txt` bypass, and
finally the session-cookie check against the tracker (abstracted here as
the predicate `isValidated`), defaulting to the challenge response.
`cookie` is the value of the `csswaf_session` cookie when present. -/
def ServeHTTPRoute (isValidated : String → Bool) (path userAgent : String)
    (cookie : Option String) : Route :=
  if hasPrefixB path "/_csswaf/res/" then Route.resHandler
  else if hasPrefixB path "/_csswaf/img/" then Route.imageHandler
  else if !containsSubstring userAgent "Mozilla" then Route.proxy
  else if feedLike (lowerStr path) then Route.proxy
  else if hasSuffixB (lowerStr path) ".txt" then Route.proxy
  else
    match cookie with
    | some sessionID =>
      if isValidated sessionID then Route.proxy else Route.challenge
    | none => Route.challenge

/-- `handleImageRequest`: split the path on `/`, require at least four
segments and a non-empty `sid` query parameter, and record the last path
segment verbatim as the image id.  `none` models the not-found response
with no state mutation. -/
def handleImageRequest (st : SessionTracker) (path sid : String)
    (now : Nat) : Option SessionTracker :=
  let parts := splitOnSlash path.toList
  if parts.length < 4 then none
  else
    let imageID := String.mk (parts.getLastD [])
    if sid = "" then none
    else some (st.AddImageLoad sid imageID now)

/-- One keyframe rule of the challenge stylesheet, for offset percentage
`off`, image label `img` and session id `sid` (source line 267). -/
def keyframeRule (off : Nat) (img sid : String) : String :=
  toString off ++ "% \x7b content: url(\x27/_csswaf/img/" ++ img ++ "?sid="
    ++ sid ++ "\x27); \x7d"

/-- The keyframe lines built by `renderWafResponse` before the second
shuffle: one rule per position `i` of the expected sequence.  The offset
is written as `strconv.Itoa(int(float64(i)/float64(N)*100))`; for the
program value `N = 6` (and every `i < 6`) that float computation equals
the integer division `i * 100 / N` used here, namely the offsets
0, 16, 33, 50, 66, 83. -/
def keyframeLines (expectedSequence : List String) (sid : String) :
    List String :=
  (List.range expectedSequence.length).map fun i =>
    keyframeRule (i * 100 / expectedSequence.length)
      (expectedSequence.getD i "") sid

/-- The keyframe block actually emitted: the lines, reordered by a second
independent `shuffle` whose random permutation is `q`. -/
def renderKeyframeBlock (q : List Nat) (expectedSequence : List String)
    (sid : String) : List String :=
  shuffle q (keyframeLines expectedSequence sid)

/-- The offset the spec ascribes to position `i` of `N`: `i / N * 100`,
as an exact rational.  Compared against the integer offset the code
writes (`keyframeLines`). -/
def specOffset (i n : Nat) : ℚ := (i : ℚ) / (n : ℚ) * 100

/-- Event times are nondecreasing, starting no earlier than `t`. -/
def timesMonoB : Nat → List (String × Nat) → Bool
  | _, [] => true
  | t, e :: rest => decide (t ≤ e.2) && timesMonoB e.2 rest

/-- The time of the last event, defaulting to `t`. -/
def lastTime : Nat → List (String × Nat) → Nat
  | t, [] => t
  | _, e :: rest => lastTime e.2 rest

/-- The `validated` cache holds no entry for the session that is both
alive at instant `t` and `true`: `IsValidated` answers `false` at `t`. -/
def validNotTrue (m : CacheMap Bool) (sessionID : String) (t : Nat) : Prop :=
  match m sessionID with
  | some (true, e) => e ≤ t
  | _ => True

/-- Invariant of a poisoned session (established by a honeypot fetch and
preserved by every later `AddImageLoad`, as long as no fresh
`SetExpectedSequence` intervenes): the `validated` entry is absent,
`false`, or already expired; and the `expected` entry, when it stores a
permutation of the canonical labels, is either already expired or
outlived by a `sequences` entry whose head is the poison sentinel.  The
parameter `t` is a lower bound on the time of the next event. -/
def poisonInv (st : SessionTracker) (sessionID : String) (t : Nat) : Prop :=
  validNotTrue st.validated sessionID t ∧
  (st.expected sessionID = none ∨
    ∃ E ee, st.expected sessionID = some (E, ee) ∧ E.Perm Sequence ∧
      (ee ≤ t ∨
        ∃ S es, st.sequences sessionID = some (S, es) ∧ ee ≤ es ∧
          es ≤ t + st.ttl ∧ S.head? = some "Honeypot_placeholder"))

/-- The `expected` entry for the session is absent or expired at `t`. -/
def expectedDead (st : SessionTracker) (sessionID : String) (t : Nat) : Prop :=
  match st.expected sessionID with
  | none => True
  | some (_, ee) => ee ≤ t

/-- The value a `Get` returns at instant `now`: the stored value when the
entry is alive, `none` otherwise.  Equals `(getEntry ...).1`. -/
def readOpt (m : CacheMap α) (k : String) (now : Nat) : Option α :=
  match m k with
  | none => none
  | some (v, exp) => if now < exp then some v else none

/-! ### Basic cache lemmas -/

theorem mapSet_same (m : CacheMap α) (k : String) (v : α) (e : Nat) :
    mapSet m k v e k = some (v, e) := by
  simp [mapSet]

theorem mapSet_other (m : CacheMap α) (k k' : String) (v : α) (e : Nat)
    (h : k' ≠ k) : mapSet m k v e k' = m k' := by
  simp [mapSet, h]

theorem getEntry_snd (T : Nat) (m : CacheMap α) (k : String) (now : Nat) :
    (getEntry T false m k now).2 = m := by
  unfold getEntry
  cases h : m k with
  | none => rfl
  | some p => by_cases hl : now < p.2 <;> simp [hl]

theorem getEntry_fst (T : Nat) (touch : Bool) (m : CacheMap α) (k : String)
    (now : Nat) : (getEntry T touch m k now).1 = readOpt m k now := by
  unfold getEntry readOpt
  cases h : m k with
  | none => rfl
  | some p => by_cases hl : now < p.2 <;> simp [hl]

theorem AddImageLoad_eq (st : SessionTracker) (sessionID imageID : String)
    (now : Nat) (htouch : st.touchOnHit = false) :
    st.AddImageLoad sessionID imageID now =
      if imageID ∈ HoneypotImg then
        { st with sequences :=
            mapSet st.sequences sessionID ["Honeypot_placeholder"] (now + st.ttl) }
      else
        let sequence' := (readOpt st.sequences sessionID now).getD [] ++ [imageID]
        let st' :=
          { st with sequences := mapSet st.sequences sessionID sequence' (now + st.ttl) }
        match readOpt st.expected sessionID now with
        | some expectedSeq =>
          if sequence'.length = expectedSeq.length then
            { st' with
              validated := mapSet st.validated sessionID (seqMatch sequence' expectedSeq) (now + st.ttl) }
          else st'
        | none => st' := by
  cases st with
  | mk seqs exps vals T touch =>
    simp only at htouch
    subst htouch
    simp only [SessionTracker.AddImageLoad, SessionTracker.addImageLoadRead,
      SessionTracker.addImageLoadRest, getEntry_snd, getEntry_fst]

theorem update_validated_self (st : SessionTracker) :
    { st with validated := st.validated } = st := rfl

theorem update_sequences_self (st : SessionTracker) :
    { st with sequences := st.sequences } = st := rfl

/-! ### C5: bypass classifier priority order -/

/-- C5: for every inbound request the classifier is evaluated in fixed
priority order before any session lookup: (1) `/_csswaf/res/` and
`/_csswaf/img/` paths go to the static responder resp. the image handler
(never directly to the proxy); (2) a non-Mozilla user agent is forwarded
unconditionally; (3) rss/feed/atom paths are forwarded unconditionally;
(4) `.txt` paths are forwarded unconditionally; (5) otherwise a present
cookie whose session is validated is forwarded, and every remaining case
gets the challenge.  The validation predicate `v` is universally
quantified, so clauses (1)-(4) are decided without any session lookup. -/
theorem bypass_classifier_order (v : String → Bool) (path ua : String)
    (cookie : Option String) :
    (hasPrefixB path "/_csswaf/res/" = true →
      ServeHTTPRoute v path ua cookie = Route.resHandler) ∧
    (hasPrefixB path "/_csswaf/res/" = false →
      hasPrefixB path "/_csswaf/img/" = true →
      ServeHTTPRoute v path ua cookie = Route.imageHandler) ∧
    (hasPrefixB path "/_csswaf/res/" = false →
      hasPrefixB path "/_csswaf/img/" = false →
      containsSubstring ua "Mozilla" = false →
      ServeHTTPRoute v path ua cookie = Route.proxy) ∧
    (hasPrefixB path "/_csswaf/res/" = false →
      hasPrefixB path "/_csswaf/img/" = false →
      containsSubstring ua "Mozilla" = true →
      feedLike (lowerStr path) = true →
      ServeHTTPRoute v path ua cookie = Route.proxy) ∧
    (hasPrefixB path "/_csswaf/res/" = false →
      hasPrefixB path "/_csswaf/img/" = false →
      containsSubstring ua "Mozilla" = true →
      feedLike (lowerStr path) = false →
      hasSuffixB (lowerStr path) ".txt" = true →
      ServeHTTPRoute v path ua cookie = Route.proxy) ∧
    (hasPrefixB path "/_csswaf/res/" = false →
      hasPrefixB path "/_csswaf/img/" = false →
      containsSubstring ua "Mozilla" = true →
      feedLike (lowerStr path) = false →
      hasSuffixB (lowerStr path) ".txt" = false →
      (∀ sessionID, cookie = some sessionID → v sessionID = true →
        ServeHTTPRoute v path ua cookie = Route.proxy) ∧
      (∀ sessionID, cookie = some sessionID → v sessionID = false →
        ServeHTTPRoute v path ua cookie = Route.challenge) ∧
      (cookie = none → ServeHTTPRoute v path ua cookie = Route.challenge)) := by
  refine ⟨?_, ?_, ?_, ?_, ?_, ?_⟩
  · intro h1
    simp [ServeHTTPRoute, h1]
  · intro h1 h2
    simp [ServeHTTPRoute, h1, h2]
  · intro h1 h2 h3
    simp [ServeHTTPRoute, h1, h2, h3]
  · intro h1 h2 h3 h4
    simp [ServeHTTPRoute, h1, h2, h3, h4]
  · intro h1 h2 h3 h4 h5
    simp [ServeHTTPRoute, h1, h2, h3, h4, h5]
  · intro h1 h2 h3 h4 h5
    refine ⟨?_, ?_, ?_⟩
    · intro sessionID hc hv
      subst hc
      simp [ServeHTTPRoute, h1, h2, h3, h4, h5, hv]
    · intro sessionID hc hv
      subst hc
      simp [ServeHTTPRoute, h1, h2, h3, h4, h5, hv]
    · intro hc
      subst hc
      simp [ServeHTTPRoute, h1, h2, h3, h4, h5]

/-- Witness for `bypass_classifier_order`: each clause exercised at a
concrete request. -/
theorem bypass_classifier_order_witness :
    ServeHTTPRoute (fun _ => false) "/_csswaf/res/happy.webp" "Mozilla/5.0" none
        = Route.resHandler ∧
    ServeHTTPRoute (fun _ => false) "/_csswaf/img/A?x" "Mozilla/5.0" none
        = Route.imageHandler ∧
    ServeHTTPRoute (fun _ => true) "/index.html" "curl/8.0" none = Route.proxy ∧
    ServeHTTPRoute (fun _ => false) "/Feed.xml" "Mozilla/5.0" none = Route.proxy ∧
    ServeHTTPRoute (fun _ => false) "/robots.txt" "Mozilla/5.0" none = Route.proxy ∧
    ServeHTTPRoute (fun s => s == "sessAAAA") "/index.html" "Mozilla/5.0"
        (some "sessAAAA") = Route.proxy ∧
    ServeHTTPRoute (fun _ => false) "/index.html" "Mozilla/5.0" (some "sessAAAA")
        = Route.challenge ∧
    ServeHTTPRoute (fun _ => false) "/index.html" "Mozilla/5.0" none
        = Route.challenge := by
  refine ⟨?_, ?_, ?_, ?_, ?_, ?_, ?_, ?_⟩
  · exact (bypass_classifier_order _ _ _ _).1 (by decide)
  · exact (bypass_classifier_order _ _ _ _).2.1 (by decide) (by decide)
  · exact (bypass_classifier_order _ _ _ _).2.2.1 (by decide) (by decide) (by decide)
  · exact (bypass_classifier_order _ _ _ _).2.2.2.1 (by decide) (by decide)
      (by decide) (by decide)
  · exact (bypass_classifier_order _ _ _ _).2.2.2.2.1 (by decide) (by decide)
      (by decide) (by decide) (by decide)
  · exact ((bypass_classifier_order _ _ _ _).2.2.2.2.2 (by decide) (by decide)
      (by decide) (by decide) (by decide)).1 "sessAAAA" rfl (by decide)
  · exact ((bypass_classifier_order _ _ _ _).2.2.2.2.2 (by decide) (by decide)
      (by decide) (by decide) (by decide)).2.1 "sessAAAA" rfl (by decide)
  · exact ((bypass_classifier_order _ _ _ _).2.2.2.2.2 (by decide) (by decide)
      (by decide) (by decide) (by decide)).2.2 rfl

theorem IsValidated_snd (st : SessionTracker) (sessionID : String) (now : Nat)
    (htouch : st.touchOnHit = false) :
    (st.IsValidated sessionID now).2 = st := by
  cases st with
  | mk seqs exps vals T touch =>
    simp only at htouch
    subst htouch
    simp [SessionTracker.IsValidated, getEntry_snd]

/-! ### C6: TTL touch semantics -/

/-- C6: explicit set operations (issuing a challenge via
`SetExpectedSequence`, recording a fetch via `AddImageLoad`) write their
entries with a fresh full TTL (`t + ttl`); the read performed by
`IsValidated` leaves the tracker completely unchanged (touch-on-hit is
disabled); and an expired `validated` entry is indistinguishable to the
caller from an absent one (both answer `false`). -/
theorem ttl_touch_semantics (st : SessionTracker) (sessionID imageID : String)
    (E : List String) (t now : Nat) (htouch : st.touchOnHit = false) :
    ((st.SetExpectedSequence sessionID E t).expected sessionID
        = some (E, t + st.ttl) ∧
      (st.SetExpectedSequence sessionID E t).sequences sessionID
        = some ([], t + st.ttl)) ∧
    (∃ S, (st.AddImageLoad sessionID imageID t).sequences sessionID
        = some (S, t + st.ttl)) ∧
    ((st.AddImageLoad sessionID imageID t).validated = st.validated ∨
      ∃ b, (st.AddImageLoad sessionID imageID t).validated
          = mapSet st.validated sessionID b (t + st.ttl)) ∧
    ((st.IsValidated sessionID now).2 = st) ∧
    (∀ v e, st.validated sessionID = some (v, e) → e ≤ now →
      (st.IsValidated sessionID now).1 = false) ∧
    (st.validated sessionID = none → (st.IsValidated sessionID now).1 = false) := by
  refine ⟨⟨?_, ?_⟩, ?_, ?_, ?_, ?_, ?_⟩
  · simp [SessionTracker.SetExpectedSequence, mapSet_same]
  · simp [SessionTracker.SetExpectedSequence, mapSet_same]
  · rw [AddImageLoad_eq st sessionID imageID t htouch]
    by_cases hh : imageID ∈ HoneypotImg
    · exact ⟨["Honeypot_placeholder"], by simp [hh, mapSet_same]⟩
    · refine ⟨(readOpt st.sequences sessionID t).getD [] ++ [imageID], ?_⟩
      simp only [hh, if_false]
      cases readOpt st.expected sessionID t with
      | none => simp [mapSet_same]
      | some E' =>
        by_cases hlen :
            ((readOpt st.sequences sessionID t).getD [] ++ [imageID]).length = E'.length
        · simp only [List.length_append, List.length_cons, List.length_nil] at hlen
          simp [hlen, mapSet_same]
        · simp only [List.length_append, List.length_cons, List.length_nil] at hlen
          simp [hlen, mapSet_same]
  · rw [AddImageLoad_eq st sessionID imageID t htouch]
    by_cases hh : imageID ∈ HoneypotImg
    · left
      simp [hh]
    · simp only [hh, if_false]
      cases readOpt st.expected sessionID t with
      | none => left; simp
      | some E' =>
        by_cases hlen :
            ((readOpt st.sequences sessionID t).getD [] ++ [imageID]).length = E'.length
        · right
          refine ⟨seqMatch ((readOpt st.sequences sessionID t).getD [] ++ [imageID]) E', ?_⟩
          simp only [List.length_append, List.length_cons, List.length_nil] at hlen
          simp [hlen]
        · left
          simp only [List.length_append, List.length_cons, List.length_nil] at hlen
          simp [hlen]
  · exact IsValidated_snd st sessionID now htouch
  · intro v e hv he
    show ((getEntry st.ttl st.touchOnHit st.validated sessionID now).1).getD false = false
    rw [getEntry_fst]
    unfold readOpt
    rw [hv]
    simp [Nat.not_lt.mpr he]
  · intro hv
    show ((getEntry st.ttl st.touchOnHit st.validated sessionID now).1).getD false = false
    rw [getEntry_fst]
    unfold readOpt
    rw [hv]
    rfl

/-- Witness for `ttl_touch_semantics` at a concrete tracker state. -/
theorem ttl_touch_semantics_witness :
    (NewSessionTracker 100).touchOnHit = false ∧
    (((NewSessionTracker 100).SetExpectedSequence "sessAAAA" Sequence 3).expected "sessAAAA"
        = some (Sequence, 103) ∧
      ((NewSessionTracker 100).SetExpectedSequence "sessAAAA" Sequence 3).sequences "sessAAAA"
        = some ([], 103)) ∧
    (∃ S, ((NewSessionTracker 100).AddImageLoad "sessAAAA" "A" 3).sequences "sessAAAA"
        = some (S, 103)) ∧
    (((NewSessionTracker 100).AddImageLoad "sessAAAA" "A" 3).validated
        = (NewSessionTracker 100).validated ∨
      ∃ b, ((NewSessionTracker 100).AddImageLoad "sessAAAA" "A" 3).validated
          = mapSet (NewSessionTracker 100).validated "sessAAAA" b 103) ∧
    (((NewSessionTracker 100).IsValidated "sessAAAA" 7).2 = NewSessionTracker 100) ∧
    (∀ v e, (NewSessionTracker 100).validated "sessAAAA" = some (v, e) → e ≤ 7 →
      ((NewSessionTracker 100).IsValidated "sessAAAA" 7).1 = false) ∧
    ((NewSessionTracker 100).validated "sessAAAA" = none →
      ((NewSessionTracker 100).IsValidated "sessAAAA" 7).1 = false) :=
  ⟨rfl, ttl_touch_semantics (NewSessionTracker 100) "sessAAAA" "A" Sequence 3 7 rfl⟩

/-! ### C7: challenge issuance resets the session -/

/-- C7: issuing a challenge stores the freshly drawn expected sequence
(`shuffle p Sequence`, for the permutation `p` drawn by `mathrand.Perm`)
for the new session id, resets the observed sequence to empty, and — the
session id being freshly generated, hence absent from the `validated`
cache — leaves the validated outcome pending: no entry exists and
`IsValidated` answers `false` at any instant. -/
theorem challenge_reset (st : SessionTracker) (sessionID : String)
    (p : List Nat) (t tq : Nat) (hfresh : st.validated sessionID = none) :
    (st.SetExpectedSequence sessionID (shuffle p Sequence) t).expected sessionID
        = some (shuffle p Sequence, t + st.ttl) ∧
    (st.SetExpectedSequence sessionID (shuffle p Sequence) t).sequences sessionID
        = some ([], t + st.ttl) ∧
    (st.SetExpectedSequence sessionID (shuffle p Sequence) t).validated sessionID
        = none ∧
    ((st.SetExpectedSequence sessionID (shuffle p Sequence) t).IsValidated sessionID tq).1
        = false := by
  refine ⟨?_, ?_, ?_, ?_⟩
  · simp [SessionTracker.SetExpectedSequence, mapSet_same]
  · simp [SessionTracker.SetExpectedSequence, mapSet_same]
  · simpa [SessionTracker.SetExpectedSequence] using hfresh
  · show ((getEntry _ _ _ _ _).1).getD false = false
    rw [getEntry_fst]
    unfold readOpt
    have h2 : (st.SetExpectedSequence sessionID (shuffle p Sequence) t).validated sessionID = none := by
      simpa [SessionTracker.SetExpectedSequence] using hfresh
    rw [h2]
    rfl

/-- Witness for `challenge_reset` at a fresh tracker. -/
theorem challenge_reset_witness :
    (NewSessionTracker 100).validated "sessAAAA" = none ∧
    ((NewSessionTracker 100).SetExpectedSequence "sessAAAA" (shuffle [1, 0, 2, 3, 4, 5] Sequence) 0).expected "sessAAAA"
        = some (shuffle [1, 0, 2, 3, 4, 5] Sequence, 100) ∧
    ((NewSessionTracker 100).SetExpectedSequence "sessAAAA" (shuffle [1, 0, 2, 3, 4, 5] Sequence) 0).sequences "sessAAAA"
        = some ([], 100) ∧
    ((NewSessionTracker 100).SetExpectedSequence "sessAAAA" (shuffle [1, 0, 2, 3, 4, 5] Sequence) 0).validated "sessAAAA"
        = none ∧
    (((NewSessionTracker 100).SetExpectedSequence "sessAAAA" (shuffle [1, 0, 2, 3, 4, 5] Sequence) 0).IsValidated "sessAAAA" 50).1
        = false :=
  ⟨rfl, challenge_reset (NewSessionTracker 100) "sessAAAA" [1, 0, 2, 3, 4, 5] 0 50 rfl⟩

/-! ### Reading lemmas and the main run induction -/

theorem readOpt_live (m : CacheMap α) (k : String) (v : α) (e now : Nat)
    (h : m k = some (v, e)) (hl : now < e) : readOpt m k now = some v := by
  unfold readOpt
  rw [h]
  simp [hl]

theorem readOpt_dead (m : CacheMap α) (k : String) (v : α) (e now : Nat)
    (h : m k = some (v, e)) (hd : e ≤ now) : readOpt m k now = none := by
  unfold readOpt
  rw [h]
  simp [Nat.not_lt.mpr hd]

theorem readOpt_absent (m : CacheMap α) (k : String) (now : Nat)
    (h : m k = none) : readOpt m k now = none := by
  unfold readOpt
  rw [h]

theorem runAdds_cons (st : SessionTracker) (sessionID : String)
    (e : String × Nat) (rest : List (String × Nat)) :
    runAdds st sessionID (e :: rest)
      = runAdds (st.AddImageLoad sessionID e.1 e.2) sessionID rest := rfl

/-- Main induction along a run of non-honeypot fetches for a session whose
`expected` and `sequences` entries are alive through the whole window
`[t0, t0 + T)`: the observed sequence accumulates exactly the fetched
labels, the `validated` cache is written exactly when the observed length
reaches the expected length, and then with the verdict `seqMatch`. -/
theorem runAdds_progress (evs : List (String × Nat)) :
    ∀ (st : SessionTracker) (sessionID : String) (E P : List String)
      (te es t0 T : Nat),
    st.touchOnHit = false → st.ttl = T →
    st.expected sessionID = some (E, te) → t0 + T ≤ te →
    st.sequences sessionID = some (P, es) → t0 + T ≤ es →
    (∀ e ∈ evs, e.1 ∉ HoneypotImg ∧ t0 ≤ e.2 ∧ e.2 < t0 + T) →
    P.length + evs.length ≤ E.length →
    (runAdds st sessionID evs).touchOnHit = false ∧
    (runAdds st sessionID evs).ttl = T ∧
    (runAdds st sessionID evs).expected = st.expected ∧
    (∃ es', (runAdds st sessionID evs).sequences sessionID
        = some (P ++ evs.map Prod.fst, es') ∧ t0 + T ≤ es') ∧
    (P.length + evs.length < E.length →
      (runAdds st sessionID evs).validated = st.validated) ∧
    (P.length + evs.length = E.length → 0 < evs.length →
      ∃ e', (runAdds st sessionID evs).validated
          = mapSet st.validated sessionID
              (seqMatch (P ++ evs.map Prod.fst) E) e' ∧
        t0 + T ≤ e') := by
  induction evs with
  | nil =>
    intro st sessionID E P te es t0 T htouch hT hexp hte hseq hes _ _
    refine ⟨htouch, hT, rfl, ⟨es, by simpa using hseq, hes⟩, fun _ => rfl, ?_⟩
    intro _ h0
    exact absurd h0 (by simp)
  | cons ev rest ih =>
    intro st sessionID E P te es t0 T htouch hT hexp hte hseq hes hwin hlen
    obtain ⟨l, t'⟩ := ev
    obtain ⟨hl0, ht00, htlt0⟩ := hwin (l, t') (by simp)
    have hl : l ∉ HoneypotImg := hl0
    have ht0 : t0 ≤ t' := ht00
    have htlt : t' < t0 + T := htlt0
    have hlen' : P.length + (rest.length + 1) ≤ E.length := by
      simpa using hlen
    have hrdseq : readOpt st.sequences sessionID t' = some P :=
      readOpt_live _ _ _ _ _ hseq (lt_of_lt_of_le htlt hes)
    have hrdexp : readOpt st.expected sessionID t' = some E :=
      readOpt_live _ _ _ _ _ hexp (lt_of_lt_of_le htlt hte)
    by_cases hb : P.length + 1 = E.length
    · -- boundary step: this is the final event
      have hrest : rest = [] := by
        have := hlen
        simp only [List.length_cons] at this
        have : rest.length = 0 := by omega
        exact List.length_eq_zero.mp this
      subst hrest
      have hA : st.AddImageLoad sessionID l t' =
          { st with
            sequences := mapSet st.sequences sessionID (P ++ [l]) (t' + T),
            validated := mapSet st.validated sessionID (seqMatch (P ++ [l]) E) (t' + T) } := by
        rw [AddImageLoad_eq st sessionID l t' htouch]
        simp [hl, hrdseq, hrdexp, hb, hT]
      rw [runAdds_cons, hA]
      refine ⟨htouch, hT, rfl, ⟨t' + T, by simp [runAdds, mapSet_same], by omega⟩, ?_, ?_⟩
      · intro hlt
        simp only [List.length_cons] at hlt
        omega
      · intro _ _
        exact ⟨t' + T, by simp [runAdds], by omega⟩
    · -- intermediate step: strictly below the boundary
      have hblt : P.length + 1 < E.length := by
        simp only [List.length_cons] at hlen
        omega
      have hA : st.AddImageLoad sessionID l t' =
          { st with
            sequences := mapSet st.sequences sessionID (P ++ [l]) (t' + T) } := by
        rw [AddImageLoad_eq st sessionID l t' htouch]
        simp [hl, hrdseq, hrdexp, hb, hT]
      rw [runAdds_cons, hA]
      have ihres := ih
        { st with sequences := mapSet st.sequences sessionID (P ++ [l]) (t' + T) }
        sessionID E (P ++ [l]) te (t' + T) t0 T htouch hT hexp hte
        (by simp [mapSet_same]) (by omega)
        (fun e he => hwin e (by simp [he]))
        (by simp only [List.length_append, List.length_cons, List.length_nil]; omega)

      obtain ⟨c1, c2, c3, ⟨es', hs, hes'⟩, c5, c6⟩ := ihres
      refine ⟨c1, c2, by simpa using c3, ⟨es', by simpa [List.append_assoc] using hs, hes'⟩, ?_, ?_⟩
      · intro hlt
        have : (P ++ [l]).length + rest.length < E.length := by
          simp only [List.length_append, List.length_cons, List.length_nil]
          simp only [List.length_cons] at hlt
          omega
        simpa using c5 this
      · intro heq _
        have hrest_pos : 0 < rest.length := by
          simp only [List.length_cons] at heq
          omega
        obtain ⟨e', hv, he'⟩ := c6
          (by simp only [List.length_append, List.length_cons, List.length_nil]
              simp only [List.length_cons] at heq
              omega) hrest_pos
        exact ⟨e', by simpa [List.append_assoc] using hv, he'⟩

theorem seqMatch_self (L : List String) : seqMatch L L = true := by
  induction L with
  | nil => rfl
  | cons a as ih =>
    simp only [seqMatch, List.zip_cons_cons, List.all_cons, Bool.and_eq_true]
    exact ⟨by simp, by simpa [seqMatch] using ih⟩

theorem seqMatch_false_of_ne (A B : List String) (i : Nat)
    (hi : i < A.length) (hj : i < B.length) (hne : A[i] ≠ B[i]) :
    seqMatch A B = false := by
  unfold seqMatch
  rw [Bool.eq_false_iff]
  intro hall
  rw [List.all_eq_true] at hall
  have hmem : (A[i], B[i]) ∈ A.zip B := by
    have hzlen : i < (A.zip B).length := by
      rw [List.length_zip]
      omega
    have := @List.getElem_zip _ _ A B i hzlen
    rw [← this]
    exact List.getElem_mem hzlen
  have := hall _ hmem
  simp only [beq_iff_eq] at this
  exact hne this

/-! ### C1: exact match validates -/

/-- C1: for a session whose expected sequence `E` was just set by
`SetExpectedSequence` (observed sequence empty, no decision recorded for
the fresh id), fetching exactly the labels of `E` in order — no honeypot
labels, no duplicates, no omissions — makes the final `AddImageLoad` set
`validated` to `true`, and `IsValidated` subsequently answers `true`.
The timing hypotheses say all fetches and the later query happen inside
the TTL window that starts at the challenge instant `t0`. -/
theorem exact_match (st : SessionTracker) (sessionID : String)
    (E : List String) (ts : List Nat) (t0 tq : Nat)
    (htouch : st.touchOnHit = false)
    (hne : E ≠ [])
    (hhp : ∀ l ∈ E, l ∉ HoneypotImg)
    (hlen : ts.length = E.length)
    (hts : ∀ t' ∈ ts, t0 ≤ t' ∧ t' < t0 + st.ttl)
    (htq : tq < t0 + st.ttl) :
    (∃ e, (runAdds (st.SetExpectedSequence sessionID E t0) sessionID
        (E.zip ts)).validated sessionID = some (true, e)) ∧
    ((runAdds (st.SetExpectedSequence sessionID E t0) sessionID
        (E.zip ts)).IsValidated sessionID tq).1 = true := by
  set st1 := st.SetExpectedSequence sessionID E t0 with hst1
  have h1exp : st1.expected sessionID = some (E, t0 + st.ttl) := by
    simp [hst1, SessionTracker.SetExpectedSequence, mapSet_same]
  have h1seq : st1.sequences sessionID = some ([], t0 + st.ttl) := by
    simp [hst1, SessionTracker.SetExpectedSequence, mapSet_same]
  have h1touch : st1.touchOnHit = false := htouch
  have h1ttl : st1.ttl = st.ttl := rfl
  have hzlen : (E.zip ts).length = E.length := by
    rw [List.length_zip]
    omega
  have hprog := runAdds_progress (E.zip ts) st1 sessionID E []
    (t0 + st.ttl) (t0 + st.ttl) t0 st.ttl h1touch h1ttl h1exp le_rfl h1seq le_rfl
    (fun e he => by
      obtain ⟨h1, h2⟩ := List.of_mem_zip he
      exact ⟨hhp _ h1, (hts _ h2).1, (hts _ h2).2⟩)
    (by simp [hzlen])
  obtain ⟨-, c2, -, -, -, c6⟩ := hprog
  have hEpos : 0 < E.length := List.length_pos.mpr hne
  obtain ⟨e', hv, he'⟩ := c6 (by simp [hzlen]) (by omega)
  have hmapfst : (E.zip ts).map Prod.fst = E :=
    List.map_fst_zip E ts (le_of_eq hlen.symm)
  rw [hmapfst] at hv
  simp only [List.nil_append, seqMatch_self] at hv
  refine ⟨⟨e', by rw [hv]; exact mapSet_same _ _ _ _⟩, ?_⟩
  show ((getEntry _ _ _ _ _).1).getD false = true
  rw [getEntry_fst]
  have hval : (runAdds st1 sessionID (E.zip ts)).validated sessionID
      = some (true, e') := by
    rw [hv]
    exact mapSet_same _ _ _ _
  rw [readOpt_live _ _ _ _ _ hval (lt_of_lt_of_le htq he')]
  rfl

/-- Witness for `exact_match`: the canonical six-label sequence fetched
in order inside the window. -/
theorem exact_match_witness :
    ((NewSessionTracker 100).touchOnHit = false ∧
      Sequence ≠ [] ∧
      (∀ l ∈ Sequence, l ∉ HoneypotImg) ∧
      ([1, 1, 2, 2, 3, 3] : List Nat).length = Sequence.length ∧
      (∀ t' ∈ ([1, 1, 2, 2, 3, 3] : List Nat),
        0 ≤ t' ∧ t' < 0 + (NewSessionTracker 100).ttl) ∧
      50 < 0 + (NewSessionTracker 100).ttl) ∧
    (∃ e, (runAdds ((NewSessionTracker 100).SetExpectedSequence "sessAAAA" Sequence 0)
        "sessAAAA" (Sequence.zip [1, 1, 2, 2, 3, 3])).validated "sessAAAA"
        = some (true, e)) ∧
    ((runAdds ((NewSessionTracker 100).SetExpectedSequence "sessAAAA" Sequence 0)
        "sessAAAA" (Sequence.zip [1, 1, 2, 2, 3, 3])).IsValidated "sessAAAA" 50).1 = true :=
  ⟨⟨rfl, by decide, by decide, by decide, by decide, by decide⟩,
    exact_match (NewSessionTracker 100) "sessAAAA" Sequence [1, 1, 2, 2, 3, 3] 0 50
      rfl (by decide) (by decide) (by decide) (by decide) (by decide)⟩

/-! ### C10: no canonical-membership check on fetched labels -/

/-- C10: `AddImageLoad` performs no membership check against the canonical
label set: every label outside the honeypot set — foreign strings and even
the poison sentinel itself, taken verbatim from the last path segment by
the image handler — is appended to the observed sequence and counts toward
the length boundary; consequently a single foreign label `x` inserted at
position `k` of an otherwise correct fetch order forces `validated = false`
at the boundary. -/
theorem foreign_label_counts (st : SessionTracker) (sessionID x : String)
    (E : List String) (k : Nat) (ts : List Nat) (t0 tq : Nat)
    (htouch : st.touchOnHit = false)
    (hxhp : x ∉ HoneypotImg) (hxseq : x ∉ Sequence)
    (hE : E.Perm Sequence)
    (hk : k < E.length)
    (hlen : ts.length = E.length)
    (hts : ∀ t ∈ ts, t0 ≤ t ∧ t < t0 + st.ttl)
    (htq : tq < t0 + st.ttl) :
    ((st.AddImageLoad sessionID x t0).sequences sessionID
        = some ((readOpt st.sequences sessionID t0).getD [] ++ [x], t0 + st.ttl)) ∧
    (∀ st2 : SessionTracker, ∀ now : Nat,
      handleImageRequest st2 "/_csswaf/img/Honeypot_placeholder" "sessAAAA" now
        = some (st2.AddImageLoad "sessAAAA" "Honeypot_placeholder" now)) ∧
    (∃ e, (runAdds (st.SetExpectedSequence sessionID E t0) sessionID
        (((E.take k ++ x :: E.drop k).take E.length).zip ts)).validated sessionID
        = some (false, e)) ∧
    ((runAdds (st.SetExpectedSequence sessionID E t0) sessionID
        (((E.take k ++ x :: E.drop k).take E.length).zip ts)).IsValidated sessionID tq).1
      = false := by
  have hverb : (st.AddImageLoad sessionID x t0).sequences sessionID
      = some ((readOpt st.sequences sessionID t0).getD [] ++ [x], t0 + st.ttl) := by
    rw [AddImageLoad_eq st sessionID x t0 htouch]
    simp only [hxhp, if_false]
    cases readOpt st.expected sessionID t0 with
    | none => simp [mapSet_same]
    | some E' =>
      by_cases hb :
          ((readOpt st.sequences sessionID t0).getD [] ++ [x]).length = E'.length
      · simp only [List.length_append, List.length_cons, List.length_nil] at hb
        simp [hb, mapSet_same]
      · simp only [List.length_append, List.length_cons, List.length_nil] at hb
        simp [hb, mapSet_same]
  refine ⟨hverb, fun st2 now => rfl, ?_⟩
  set L : List String := (E.take k ++ x :: E.drop k).take E.length with hL
  have hMlen : (E.take k ++ x :: E.drop k).length = E.length + 1 := by
    simp only [List.length_append, List.length_cons, List.length_take,
      List.length_drop]
    omega
  have hLlen : L.length = E.length := by
    rw [hL, List.length_take, hMlen]
    omega
  have hkL : k < L.length := by
    rw [hLlen]
    exact hk
  have htk : (E.take k).length = k := by
    rw [List.length_take]
    omega
  have hkM : k < (E.take k ++ x :: E.drop k).length := by
    rw [hMlen]
    omega
  have hMk : (E.take k ++ x :: E.drop k)[k] = x := by
    rw [List.getElem_append_right (le_of_eq htk)]
    simp [htk]
  have hLk : L[k] = x := by
    simp only [hL, List.getElem_take]
    exact hMk
  have hEkmem : E[k] ∈ Sequence := (hE.mem_iff).mp (List.getElem_mem hk)
  have hmatch : seqMatch L E = false := by
    refine seqMatch_false_of_ne L E k hkL hk ?_
    rw [hLk]
    intro hcon
    exact hxseq (hcon ▸ hEkmem)
  have hLhp : ∀ l ∈ L, l ∉ HoneypotImg := by
    intro l hl
    have hlM : l ∈ E.take k ++ x :: E.drop k := List.mem_of_mem_take hl
    have hseqhp : ∀ s ∈ Sequence, s ∉ HoneypotImg := by decide
    rcases List.mem_append.mp hlM with h | h
    · exact hseqhp l (hE.mem_iff.mp (List.mem_of_mem_take h))
    · rcases List.mem_cons.mp h with h | h
      · exact h ▸ hxhp
      · exact hseqhp l (hE.mem_iff.mp (List.mem_of_mem_drop h))
  set st1 := st.SetExpectedSequence sessionID E t0 with hst1
  have h1exp : st1.expected sessionID = some (E, t0 + st.ttl) := by
    simp [hst1, SessionTracker.SetExpectedSequence, mapSet_same]
  have h1seq : st1.sequences sessionID = some ([], t0 + st.ttl) := by
    simp [hst1, SessionTracker.SetExpectedSequence, mapSet_same]
  have hzlen : (L.zip ts).length = E.length := by
    rw [List.length_zip, hLlen]
    omega
  have hprog := runAdds_progress (L.zip ts) st1 sessionID E []
    (t0 + st.ttl) (t0 + st.ttl) t0 st.ttl htouch rfl h1exp le_rfl h1seq le_rfl
    (fun e he => by
      obtain ⟨h1, h2⟩ := List.of_mem_zip he
      exact ⟨hLhp _ h1, (hts _ h2).1, (hts _ h2).2⟩)
    (by simp [hzlen])
  obtain ⟨-, -, -, -, -, c6⟩ := hprog
  obtain ⟨e', hv, he'⟩ := c6 (by simp [hzlen]) (by rw [hzlen]; omega)
  have hmapfst : (L.zip ts).map Prod.fst = L :=
    List.map_fst_zip L ts (by omega)
  rw [hmapfst] at hv
  simp only [List.nil_append, hmatch] at hv
  have hval : (runAdds st1 sessionID (L.zip ts)).validated sessionID
      = some (false, e') := by
    rw [hv]
    exact mapSet_same _ _ _ _
  refine ⟨⟨e', hval⟩, ?_⟩
  show ((getEntry _ _ _ _ _).1).getD false = false
  rw [getEntry_fst]
  rw [readOpt_live _ _ _ _ _ hval (lt_of_lt_of_le htq he')]
  rfl

/-- Witness for `foreign_label_counts`: the poison sentinel string itself
supplied as the foreign label, inserted at position 2 of the canonical
order. -/
theorem foreign_label_counts_witness :
    ((NewSessionTracker 100).touchOnHit = false ∧
      "Honeypot_placeholder" ∉ HoneypotImg ∧
      "Honeypot_placeholder" ∉ Sequence ∧
      Sequence.Perm Sequence ∧
      2 < Sequence.length ∧
      ([1, 1, 2, 2, 3, 3] : List Nat).length = Sequence.length ∧
      (∀ t ∈ ([1, 1, 2, 2, 3, 3] : List Nat),
        0 ≤ t ∧ t < 0 + (NewSessionTracker 100).ttl) ∧
      50 < 0 + (NewSessionTracker 100).ttl) ∧
    (((NewSessionTracker 100).AddImageLoad "sessAAAA" "Honeypot_placeholder" 0).sequences "sessAAAA"
        = some ((readOpt (NewSessionTracker 100).sequences "sessAAAA" 0).getD []
            ++ ["Honeypot_placeholder"], 0 + (NewSessionTracker 100).ttl)) ∧
    (∀ st2 : SessionTracker, ∀ now : Nat,
      handleImageRequest st2 "/_csswaf/img/Honeypot_placeholder" "sessAAAA" now
        = some (st2.AddImageLoad "sessAAAA" "Honeypot_placeholder" now)) ∧
    (∃ e, (runAdds ((NewSessionTracker 100).SetExpectedSequence "sessAAAA" Sequence 0)
        "sessAAAA" (((Sequence.take 2 ++ "Honeypot_placeholder" :: Sequence.drop 2).take
          Sequence.length).zip [1, 1, 2, 2, 3, 3])).validated "sessAAAA"
        = some (false, e)) ∧
    ((runAdds ((NewSessionTracker 100).SetExpectedSequence "sessAAAA" Sequence 0)
        "sessAAAA" (((Sequence.take 2 ++ "Honeypot_placeholder" :: Sequence.drop 2).take
          Sequence.length).zip [1, 1, 2, 2, 3, 3])).IsValidated "sessAAAA" 50).1 = false :=
  ⟨⟨rfl, by decide, by decide, List.Perm.refl _, by decide, by decide, by decide,
      by decide⟩,
    foreign_label_counts (NewSessionTracker 100) "sessAAAA" "Honeypot_placeholder"
      Sequence 2 [1, 1, 2, 2, 3, 3] 0 50 rfl (by decide) (by decide)
      (List.Perm.refl _) (by decide) (by decide) (by decide) (by decide)⟩

/-! ### C2: the decision is not one-shot (honeypot resets re-open it) -/

/-- Counterexample to C2 as stated: with expected sequence
`[A, B, C, D, E, F]`, the correct six fetches set `validated = true` at
the length boundary; a later honeypot fetch (`O`) resets the observed
sequence to the single sentinel, and five further fetches reach the
boundary again, overwriting `validated` with `false` — the decision
changed after it was first made, with no intervening
`SetExpectedSequence`. -/
theorem one_shot_decision_counterexample :
    ((runAdds ((NewSessionTracker 100).SetExpectedSequence "sessAAAA" Sequence 0)
        "sessAAAA" [("A", 1), ("B", 1), ("C", 1), ("D", 1), ("E", 1), ("F", 1)]).validated
        "sessAAAA" = some (true, 101)) ∧
    ((runAdds ((NewSessionTracker 100).SetExpectedSequence "sessAAAA" Sequence 0)
        "sessAAAA" [("A", 1), ("B", 1), ("C", 1), ("D", 1), ("E", 1), ("F", 1)]).IsValidated
        "sessAAAA" 2).1 = true ∧
    ((runAdds (runAdds ((NewSessionTracker 100).SetExpectedSequence "sessAAAA" Sequence 0)
        "sessAAAA" [("A", 1), ("B", 1), ("C", 1), ("D", 1), ("E", 1), ("F", 1)]) "sessAAAA"
        [("O", 2), ("A", 3), ("B", 3), ("C", 3), ("D", 3), ("E", 3)]).validated "sessAAAA"
        = some (false, 103)) ∧
    ((runAdds (runAdds ((NewSessionTracker 100).SetExpectedSequence "sessAAAA" Sequence 0)
        "sessAAAA" [("A", 1), ("B", 1), ("C", 1), ("D", 1), ("E", 1), ("F", 1)]) "sessAAAA"
        [("O", 2), ("A", 3), ("B", 3), ("C", 3), ("D", 3), ("E", 3)]).IsValidated
        "sessAAAA" 4).1 = false := by
  refine ⟨by decide, by decide, by decide, by decide⟩

theorem AddImageLoad_touch (st : SessionTracker) (sessionID imageID : String)
    (now : Nat) (htouch : st.touchOnHit = false) :
    (st.AddImageLoad sessionID imageID now).touchOnHit = false := by
  rw [AddImageLoad_eq st sessionID imageID now htouch]
  by_cases hh : imageID ∈ HoneypotImg
  · simpa [hh] using htouch
  · simp only [hh, if_false]
    cases readOpt st.expected sessionID now with
    | none => simpa using htouch
    | some E =>
      by_cases hb :
          (((readOpt st.sequences sessionID now).getD []) ++ [imageID]).length = E.length
      · simp only [List.length_append, List.length_cons, List.length_nil] at hb
        simpa [hb] using htouch
      · simp only [List.length_append, List.length_cons, List.length_nil] at hb
        simpa [hb] using htouch

theorem AddImageLoad_ttl (st : SessionTracker) (sessionID imageID : String)
    (now : Nat) (htouch : st.touchOnHit = false) :
    (st.AddImageLoad sessionID imageID now).ttl = st.ttl := by
  rw [AddImageLoad_eq st sessionID imageID now htouch]
  by_cases hh : imageID ∈ HoneypotImg
  · simp [hh]
  · simp only [hh, if_false]
    cases readOpt st.expected sessionID now with
    | none => simp
    | some E =>
      by_cases hb :
          (((readOpt st.sequences sessionID now).getD []) ++ [imageID]).length = E.length
      · simp only [List.length_append, List.length_cons, List.length_nil] at hb
        simp [hb]
      · simp only [List.length_append, List.length_cons, List.length_nil] at hb
        simp [hb]

theorem AddImageLoad_expected (st : SessionTracker) (sessionID imageID : String)
    (now : Nat) (htouch : st.touchOnHit = false) :
    (st.AddImageLoad sessionID imageID now).expected = st.expected := by
  rw [AddImageLoad_eq st sessionID imageID now htouch]
  by_cases hh : imageID ∈ HoneypotImg
  · simp [hh]
  · simp only [hh, if_false]
    cases readOpt st.expected sessionID now with
    | none => simp
    | some E =>
      by_cases hb :
          (((readOpt st.sequences sessionID now).getD []) ++ [imageID]).length = E.length
      · simp only [List.length_append, List.length_cons, List.length_nil] at hb
        simp [hb]
      · simp only [List.length_append, List.length_cons, List.length_nil] at hb
        simp [hb]

/-- When the `expected` entry of a session is absent or expired and stays
unwritten, no run of `AddImageLoad` events (of any labels, honeypot or
not, at nondecreasing times) ever writes the `validated` cache. -/
theorem validated_unchanged_of_expected_dead (evs : List (String × Nat)) :
    ∀ (st : SessionTracker) (sessionID : String) (t : Nat),
    st.touchOnHit = false →
    expectedDead st sessionID t →
    timesMonoB t evs = true →
    (runAdds st sessionID evs).validated = st.validated := by
  induction evs with
  | nil =>
    intro st sessionID t _ _ _
    rfl
  | cons ev rest ih =>
    intro st sessionID t htouch hdead hmono
    obtain ⟨l, t'⟩ := ev
    simp only [timesMonoB, Bool.and_eq_true, decide_eq_true_eq] at hmono
    obtain ⟨htt, hmono'⟩ := hmono
    have hrdexp : readOpt st.expected sessionID t' = none := by
      unfold expectedDead at hdead
      cases hx : st.expected sessionID with
      | none => exact readOpt_absent _ _ _ hx
      | some p =>
        obtain ⟨E, ee⟩ := p
        rw [hx] at hdead
        simp only at hdead
        exact readOpt_dead _ _ _ _ _ hx (le_trans hdead htt)
    have hval : (st.AddImageLoad sessionID l t').validated = st.validated := by
      rw [AddImageLoad_eq st sessionID l t' htouch]
      by_cases hh : l ∈ HoneypotImg
      · simp [hh]
      · simp [hh, hrdexp]
    have hexp2 : (st.AddImageLoad sessionID l t').expected = st.expected :=
      AddImageLoad_expected st sessionID l t' htouch
    have hdead2 : expectedDead (st.AddImageLoad sessionID l t') sessionID t' := by
      unfold expectedDead at hdead ⊢
      rw [hexp2]
      cases hx : st.expected sessionID with
      | none => trivial
      | some p =>
        obtain ⟨E, ee⟩ := p
        rw [hx] at hdead
        simp only at hdead ⊢
        exact le_trans hdead htt
    rw [runAdds_cons]
    rw [ih (st.AddImageLoad sessionID l t') sessionID t'
      (AddImageLoad_touch st sessionID l t' htouch) hdead2 hmono']
    exact hval

/-- C2 amended: once `AddImageLoad` has decided `validated` at the length
boundary (the observed sequence is at least as long as the expected one),
no subsequent `AddImageLoad` changes the `validated` cache — provided no
honeypot-labelled fetch occurs; a honeypot fetch resets the observed
sequence to the single sentinel, after which the boundary can be crossed
again and `validated` is overwritten (necessarily with `false` when the
expected sequence is a permutation of the canonical labels, see the
poisoning theorem).  The store hypotheses say the `expected` entry was
written no later than the `sequences` entry and the latter by time `t`. -/
theorem decision_stable (evs : List (String × Nat)) :
    ∀ (st : SessionTracker) (sessionID : String) (E S : List String)
      (te es t T : Nat),
    st.touchOnHit = false → st.ttl = T →
    st.expected sessionID = some (E, te) →
    st.sequences sessionID = some (S, es) →
    E.length ≤ S.length →
    te ≤ es → es ≤ t + T →
    (∀ e ∈ evs, e.1 ∉ HoneypotImg) →
    timesMonoB t evs = true →
    (runAdds st sessionID evs).validated = st.validated := by
  induction evs with
  | nil =>
    intro st sessionID E S te es t T _ _ _ _ _ _ _ _ _
    rfl
  | cons ev rest ih =>
    intro st sessionID E S te es t T htouch hT hexp hseq hlen hte hes hhp hmono
    obtain ⟨l, t2⟩ := ev
    have hl : l ∉ HoneypotImg := hhp (l, t2) (by simp)
    simp only [timesMonoB, Bool.and_eq_true, decide_eq_true_eq] at hmono
    obtain ⟨htt, hmono2⟩ := hmono
    rw [runAdds_cons]
    by_cases halive : t2 < es
    · -- sequences entry still alive: the append keeps the length strictly
      -- past the boundary, so the comparison guard cannot fire
      have hrdseq : readOpt st.sequences sessionID t2 = some S :=
        readOpt_live _ _ _ _ _ hseq halive
      have hA : st.AddImageLoad sessionID l t2 =
          { st with sequences := mapSet st.sequences sessionID (S ++ [l]) (t2 + T) } := by
        rw [AddImageLoad_eq st sessionID l t2 htouch]
        simp only [hl, if_false, hrdseq, Option.getD_some, hT]
        cases hx : readOpt st.expected sessionID t2 with
        | none => rfl
        | some E2 =>
          have hEE : E2 = E := by
            rcases Nat.lt_or_ge t2 te with hlt | hge
            · have hy := readOpt_live _ _ _ _ _ hexp hlt
              rw [hy] at hx
              exact (Option.some_inj.mp hx).symm
            · have hy := readOpt_dead _ _ _ _ _ hexp hge
              rw [hy] at hx
              exact absurd hx (by simp)
          subst hEE
          have hguard : ¬((S ++ [l]).length = E2.length) := by
            simp only [List.length_append, List.length_cons, List.length_nil]
            omega
          simp only [List.length_append, List.length_cons, List.length_nil] at hguard
          simp [hguard]
      rw [hA]
      have hres := ih
        { st with sequences := mapSet st.sequences sessionID (S ++ [l]) (t2 + T) }
        sessionID E (S ++ [l]) te (t2 + T) t2 T htouch hT hexp
        (by simp [mapSet_same])
        (by simp only [List.length_append, List.length_cons, List.length_nil]; omega)
        (by omega) (by omega)
        (fun e he => hhp e (by simp [he])) hmono2
      simpa using hres
    · -- sequences entry expired, hence so is the expected entry: the
      -- validated cache is never written again
      have hdead : expectedDead (st.AddImageLoad sessionID l t2) sessionID t2 := by
        unfold expectedDead
        rw [AddImageLoad_expected st sessionID l t2 htouch, hexp]
        simp only
        omega
      have hval : (st.AddImageLoad sessionID l t2).validated = st.validated := by
        rw [AddImageLoad_eq st sessionID l t2 htouch]
        have hrdexp : readOpt st.expected sessionID t2 = none :=
          readOpt_dead _ _ _ _ _ hexp (by omega)
        simp [hl, hrdexp]
      rw [validated_unchanged_of_expected_dead rest (st.AddImageLoad sessionID l t2)
        sessionID t2 (AddImageLoad_touch st sessionID l t2 htouch) hdead hmono2]
      exact hval

/-! ### C3: honeypot poisoning -/

theorem validNotTrue_mono (m : CacheMap Bool) (sessionID : String) (t t' : Nat)
    (h : validNotTrue m sessionID t) (htt : t ≤ t') :
    validNotTrue m sessionID t' := by
  unfold validNotTrue at h ⊢
  cases hx : m sessionID with
  | none => trivial
  | some p =>
    obtain ⟨b, e⟩ := p
    cases b
    · trivial
    · rw [hx] at h
      simp only at h ⊢
      omega

theorem seqMatch_cons_false (a b : String) (A B : List String) (h : a ≠ b) :
    seqMatch (a :: A) (b :: B) = false := by
  simp [seqMatch, h]

theorem isValidated_false_of_validNotTrue (st : SessionTracker)
    (sessionID : String) (t tq : Nat)
    (h : validNotTrue st.validated sessionID t) (htq : t ≤ tq) :
    (st.IsValidated sessionID tq).1 = false := by
  show ((getEntry _ _ _ _ _).1).getD false = false
  rw [getEntry_fst]
  unfold validNotTrue at h
  unfold readOpt
  cases hx : st.validated sessionID with
  | none => rfl
  | some p =>
    obtain ⟨b, e⟩ := p
    cases b
    · by_cases hl : tq < e <;> simp [hl]
    · rw [hx] at h
      simp only at h
      have : ¬(tq < e) := by omega
      simp [this]

/-- One `AddImageLoad` step (of any label, honeypot or not, at a later
instant) preserves the poison invariant. -/
theorem poisonInv_step (st : SessionTracker) (sessionID l : String)
    (t t' : Nat) (htouch : st.touchOnHit = false) (htt : t ≤ t')
    (hinv : poisonInv st sessionID t) :
    poisonInv (st.AddImageLoad sessionID l t') sessionID t' := by
  obtain ⟨hvn, hexp⟩ := hinv
  by_cases hh : l ∈ HoneypotImg
  · have hA : st.AddImageLoad sessionID l t' =
        { st with sequences :=
            mapSet st.sequences sessionID ["Honeypot_placeholder"] (t' + st.ttl) } := by
      rw [AddImageLoad_eq st sessionID l t' htouch]
      simp [hh]
    rw [hA]
    refine ⟨validNotTrue_mono _ _ _ _ hvn htt, ?_⟩
    rcases hexp with hnone | ⟨E, ee, hE, hperm, hrest⟩
    · exact Or.inl hnone
    · refine Or.inr ⟨E, ee, hE, hperm, ?_⟩
      rcases hrest with hle | ⟨S, es, hS, hee, hes, hhead⟩
      · exact Or.inl (by omega)
      · exact Or.inr ⟨["Honeypot_placeholder"], t' + st.ttl, mapSet_same _ _ _ _,
          by omega, le_rfl, rfl⟩
  · rcases hexp with hnone | ⟨E, ee, hE, hperm, hrest⟩
    · -- no expected entry: nothing can be written to validated
      have hrdexp : readOpt st.expected sessionID t' = none :=
        readOpt_absent _ _ _ hnone
      have hA : st.AddImageLoad sessionID l t' =
          { st with sequences := mapSet st.sequences sessionID ((readOpt st.sequences sessionID t').getD [] ++ [l]) (t' + st.ttl) } := by
        rw [AddImageLoad_eq st sessionID l t' htouch]
        simp [hh, hrdexp]
      rw [hA]
      exact ⟨validNotTrue_mono _ _ _ _ hvn htt, Or.inl hnone⟩
    · rcases hrest with hle | ⟨S, es, hS, hee, hes, hhead⟩
      · -- expected entry already expired, forever
        have hrdexp : readOpt st.expected sessionID t' = none :=
          readOpt_dead _ _ _ _ _ hE (by omega)
        have hA : st.AddImageLoad sessionID l t' =
            { st with sequences := mapSet st.sequences sessionID ((readOpt st.sequences sessionID t').getD [] ++ [l]) (t' + st.ttl) } := by
          rw [AddImageLoad_eq st sessionID l t' htouch]
          simp [hh, hrdexp]
        rw [hA]
        exact ⟨validNotTrue_mono _ _ _ _ hvn htt,
          Or.inr ⟨E, ee, hE, hperm, Or.inl (by omega)⟩⟩
      · by_cases ha : t' < ee
        · -- expected alive, hence the poisoned sequence is alive too
          have hseqlive : t' < es := lt_of_lt_of_le ha hee
          have hrdseq : readOpt st.sequences sessionID t' = some S :=
            readOpt_live _ _ _ _ _ hS hseqlive
          have hrdexp : readOpt st.expected sessionID t' = some E :=
            readOpt_live _ _ _ _ _ hE ha
          obtain ⟨S2, hS0⟩ : ∃ S2, S = "Honeypot_placeholder" :: S2 := by
            cases S with
            | nil => simp at hhead
            | cons a S2 =>
              simp only [List.head?_cons, Option.some_inj] at hhead
              exact ⟨S2, by rw [hhead]⟩
          by_cases hb : (S ++ [l]).length = E.length
          · -- the boundary fires again, but the verdict is necessarily false
            obtain ⟨e0, E2, hE0⟩ : ∃ e0 E2, E = e0 :: E2 := by
              cases E with
              | nil =>
                rw [List.length_nil] at hb
                simp at hb
              | cons e0 E2 => exact ⟨e0, E2, rfl⟩
            have he0 : e0 ∈ Sequence := by
              refine hperm.mem_iff.mp ?_
              rw [hE0]
              exact List.mem_cons_self _ _
            have hsent : ("Honeypot_placeholder" : String) ∉ Sequence := by decide
            have hne : ("Honeypot_placeholder" : String) ≠ e0 := by
              intro hcon
              exact hsent (hcon ▸ he0)
            have hmatchF : seqMatch (S ++ [l]) E = false := by
              rw [hS0, hE0]
              exact seqMatch_cons_false _ _ _ _ hne
            have hb' : ((readOpt st.sequences sessionID t').getD [] ++ [l]).length
                = E.length := by
              rw [hrdseq]
              exact hb
            have hA : st.AddImageLoad sessionID l t' =
                { st with sequences := mapSet st.sequences sessionID (S ++ [l]) (t' + st.ttl), validated := mapSet st.validated sessionID false (t' + st.ttl) } := by
              rw [AddImageLoad_eq st sessionID l t' htouch]
              simp only [hh, if_false, hrdseq, Option.getD_some, hrdexp]
              simp only [List.length_append, List.length_cons, List.length_nil] at hb
              simp [hb, hmatchF]
            rw [hA]
            constructor
            · unfold validNotTrue
              simp only [mapSet_same]
            · refine Or.inr ⟨E, ee, hE, hperm, Or.inr
                ⟨S ++ [l], t' + st.ttl, mapSet_same _ _ _ _, by omega,
                  le_rfl, ?_⟩⟩
              rw [hS0]
              rfl
          · -- below or past the boundary: only the sequence is rewritten
            have hA : st.AddImageLoad sessionID l t' =
                { st with sequences := mapSet st.sequences sessionID (S ++ [l]) (t' + st.ttl) } := by
              rw [AddImageLoad_eq st sessionID l t' htouch]
              simp only [hh, if_false, hrdseq, Option.getD_some, hrdexp]
              simp only [List.length_append, List.length_cons, List.length_nil] at hb
              simp [hb]
            rw [hA]
            refine ⟨validNotTrue_mono _ _ _ _ hvn htt, Or.inr ⟨E, ee, hE, hperm, Or.inr
              ⟨S ++ [l], t' + st.ttl, mapSet_same _ _ _ _, by omega,
                le_rfl, ?_⟩⟩⟩
            rw [hS0]
            rfl
        · -- expected expired between the two fetches
          have hrdexp : readOpt st.expected sessionID t' = none :=
            readOpt_dead _ _ _ _ _ hE (by omega)
          have hA : st.AddImageLoad sessionID l t' =
              { st with sequences := mapSet st.sequences sessionID ((readOpt st.sequences sessionID t').getD [] ++ [l]) (t' + st.ttl) } := by
            rw [AddImageLoad_eq st sessionID l t' htouch]
            simp [hh, hrdexp]
          rw [hA]
          exact ⟨validNotTrue_mono _ _ _ _ hvn htt,
            Or.inr ⟨E, ee, hE, hperm, Or.inl (by omega)⟩⟩

/-- The poison invariant is preserved along any run of `AddImageLoad`
events at nondecreasing times. -/
theorem poisonInv_run (evs : List (String × Nat)) :
    ∀ (st : SessionTracker) (sessionID : String) (t : Nat),
    st.touchOnHit = false →
    poisonInv st sessionID t →
    timesMonoB t evs = true →
    poisonInv (runAdds st sessionID evs) sessionID (lastTime t evs) := by
  induction evs with
  | nil =>
    intro st sessionID t _ hinv _
    exact hinv
  | cons ev rest ih =>
    intro st sessionID t htouch hinv hmono
    obtain ⟨l, t'⟩ := ev
    simp only [timesMonoB, Bool.and_eq_true, decide_eq_true_eq] at hmono
    obtain ⟨htt, hmono'⟩ := hmono
    rw [runAdds_cons]
    exact ih (st.AddImageLoad sessionID l t') sessionID t'
      (AddImageLoad_touch st sessionID l t' htouch)
      (poisonInv_step st sessionID l t t' htouch htt hinv) hmono'

/-- C3: an `AddImageLoad` whose label is in the honeypot set
unconditionally replaces the observed sequence by the single poison
sentinel, discarding all prior progress; and from that event on, for any
further fetches whatsoever (correct labels included) and without a fresh
`SetExpectedSequence`, `IsValidated` can never answer `true` — provided
it did not already answer `true` at the poison instant (a prior completed
challenge is the only way `validated` can already be `true`, and it does
not *become* true afterwards).  The `expected` entry, when present, is
one issued by the challenge renderer: a permutation of the canonical
labels written before the poison instant. -/
theorem honeypot_poisons (st : SessionTracker) (sessionID hp : String)
    (evs : List (String × Nat)) (th tq : Nat)
    (htouch : st.touchOnHit = false)
    (hhp : hp ∈ HoneypotImg)
    (hvn : validNotTrue st.validated sessionID th)
    (hexp : st.expected sessionID = none ∨
      ∃ E ee, st.expected sessionID = some (E, ee) ∧ E.Perm Sequence ∧
        ee ≤ th + st.ttl)
    (hmono : timesMonoB th evs = true)
    (htq : lastTime th evs ≤ tq) :
    ((st.AddImageLoad sessionID hp th).sequences sessionID
        = some (["Honeypot_placeholder"], th + st.ttl)) ∧
    ((runAdds (st.AddImageLoad sessionID hp th) sessionID evs).IsValidated
        sessionID tq).1 = false := by
  have hA : st.AddImageLoad sessionID hp th =
      { st with sequences := mapSet st.sequences sessionID ["Honeypot_placeholder"] (th + st.ttl) } := by
    rw [AddImageLoad_eq st sessionID hp th htouch]
    simp [hhp]
  have hpoisoned : (st.AddImageLoad sessionID hp th).sequences sessionID
      = some (["Honeypot_placeholder"], th + st.ttl) := by
    rw [hA]
    exact mapSet_same _ _ _ _
  refine ⟨hpoisoned, ?_⟩
  have hinv0 : poisonInv (st.AddImageLoad sessionID hp th) sessionID th := by
    rw [hA]
    refine ⟨hvn, ?_⟩
    rcases hexp with hnone | ⟨E, ee, hE, hperm, hee⟩
    · exact Or.inl hnone
    · exact Or.inr ⟨E, ee, hE, hperm, Or.inr ⟨["Honeypot_placeholder"],
        th + st.ttl, mapSet_same _ _ _ _, hee, le_rfl, rfl⟩⟩
  have hinvF := poisonInv_run evs (st.AddImageLoad sessionID hp th) sessionID th
    (AddImageLoad_touch st sessionID hp th htouch) hinv0 hmono
  have hlast : validNotTrue (runAdds (st.AddImageLoad sessionID hp th) sessionID
      evs).validated sessionID (lastTime th evs) := hinvF.1
  exact isValidated_false_of_validNotTrue _ _ _ _ hlast htq

/-- Witness for `honeypot_poisons`: honeypot label `O` fetched after two
correct fetches, followed by six correct fetches; the session never
validates. -/
theorem honeypot_poisons_witness :
    ((runAdds ((NewSessionTracker 100).SetExpectedSequence "sessAAAA" Sequence 0)
        "sessAAAA" [("A", 1), ("B", 1)]).touchOnHit = false ∧
      "O" ∈ HoneypotImg ∧
      validNotTrue (runAdds ((NewSessionTracker 100).SetExpectedSequence "sessAAAA"
        Sequence 0) "sessAAAA" [("A", 1), ("B", 1)]).validated "sessAAAA" 2 ∧
      timesMonoB 2 [("A", 3), ("B", 3), ("C", 4), ("D", 4), ("E", 5), ("F", 5)] = true ∧
      lastTime 2 [("A", 3), ("B", 3), ("C", 4), ("D", 4), ("E", 5), ("F", 5)] ≤ 10) ∧
    (((runAdds ((NewSessionTracker 100).SetExpectedSequence "sessAAAA" Sequence 0)
        "sessAAAA" [("A", 1), ("B", 1)]).AddImageLoad "sessAAAA" "O" 2).sequences "sessAAAA"
        = some (["Honeypot_placeholder"], 2 + (runAdds ((NewSessionTracker 100).SetExpectedSequence
          "sessAAAA" Sequence 0) "sessAAAA" [("A", 1), ("B", 1)]).ttl)) ∧
    ((runAdds ((runAdds ((NewSessionTracker 100).SetExpectedSequence "sessAAAA" Sequence 0)
        "sessAAAA" [("A", 1), ("B", 1)]).AddImageLoad "sessAAAA" "O" 2) "sessAAAA"
        [("A", 3), ("B", 3), ("C", 4), ("D", 4), ("E", 5), ("F", 5)]).IsValidated
        "sessAAAA" 10).1 = false := by
  refine ⟨⟨by decide, by decide, ?_, by decide, by decide⟩, ?_⟩
  · unfold validNotTrue
    have : (runAdds ((NewSessionTracker 100).SetExpectedSequence "sessAAAA" Sequence 0)
        "sessAAAA" [("A", 1), ("B", 1)]).validated "sessAAAA" = none := by decide
    rw [this]
    trivial
  · exact honeypot_poisons (runAdds ((NewSessionTracker 100).SetExpectedSequence
      "sessAAAA" Sequence 0) "sessAAAA" [("A", 1), ("B", 1)]) "sessAAAA" "O"
      [("A", 3), ("B", 3), ("C", 4), ("D", 4), ("E", 5), ("F", 5)] 2 10
      (by decide) (by decide)
      (by
        unfold validNotTrue
        have : (runAdds ((NewSessionTracker 100).SetExpectedSequence "sessAAAA" Sequence 0)
            "sessAAAA" [("A", 1), ("B", 1)]).validated "sessAAAA" = none := by decide
        rw [this]
        trivial)
      (Or.inr ⟨Sequence, 100, by decide, List.Perm.refl _, by decide⟩)
      (by decide) (by decide)

/-- Witness for `decision_stable`: after the correct six fetches decided
`validated = true`, two further correct-looking fetches leave the
`validated` cache untouched. -/
theorem decision_stable_witness :
    ((runAdds ((NewSessionTracker 100).SetExpectedSequence "sessAAAA" Sequence 0)
        "sessAAAA" [("A", 1), ("B", 1), ("C", 1), ("D", 1), ("E", 1), ("F", 1)]).touchOnHit
        = false ∧
      (runAdds ((NewSessionTracker 100).SetExpectedSequence "sessAAAA" Sequence 0)
        "sessAAAA" [("A", 1), ("B", 1), ("C", 1), ("D", 1), ("E", 1), ("F", 1)]).ttl = 100 ∧
      (runAdds ((NewSessionTracker 100).SetExpectedSequence "sessAAAA" Sequence 0)
        "sessAAAA" [("A", 1), ("B", 1), ("C", 1), ("D", 1), ("E", 1), ("F", 1)]).expected
        "sessAAAA" = some (Sequence, 100) ∧
      (runAdds ((NewSessionTracker 100).SetExpectedSequence "sessAAAA" Sequence 0)
        "sessAAAA" [("A", 1), ("B", 1), ("C", 1), ("D", 1), ("E", 1), ("F", 1)]).sequences
        "sessAAAA" = some (["A", "B", "C", "D", "E", "F"], 101) ∧
      Sequence.length ≤ (["A", "B", "C", "D", "E", "F"] : List String).length ∧
      (100 : Nat) ≤ 101 ∧ (101 : Nat) ≤ 1 + 100 ∧
      (∀ e ∈ ([("A", 2), ("B", 3)] : List (String × Nat)), e.1 ∉ HoneypotImg) ∧
      timesMonoB 1 [("A", 2), ("B", 3)] = true) ∧
    (runAdds (runAdds ((NewSessionTracker 100).SetExpectedSequence "sessAAAA" Sequence 0)
        "sessAAAA" [("A", 1), ("B", 1), ("C", 1), ("D", 1), ("E", 1), ("F", 1)]) "sessAAAA"
        [("A", 2), ("B", 3)]).validated
      = (runAdds ((NewSessionTracker 100).SetExpectedSequence "sessAAAA" Sequence 0)
        "sessAAAA" [("A", 1), ("B", 1), ("C", 1), ("D", 1), ("E", 1), ("F", 1)]).validated :=
  ⟨⟨by decide, by decide, by decide, by decide, by decide, by decide, by decide,
      by decide, by decide⟩,
    decision_stable [("A", 2), ("B", 3)]
      (runAdds ((NewSessionTracker 100).SetExpectedSequence "sessAAAA" Sequence 0)
        "sessAAAA" [("A", 1), ("B", 1), ("C", 1), ("D", 1), ("E", 1), ("F", 1)])
      "sessAAAA" Sequence ["A", "B", "C", "D", "E", "F"] 100 101 1 100
      (by decide) (by decide) (by decide) (by decide) (by decide) (by decide)
      (by decide) (by decide) (by decide)⟩

/-! ### C4: the expected sequence is a permutation, but not uniform -/

theorem swapPositions_perm (l : List String) (i v : Nat)
    (hi : i < l.length) (hv : v < l.length) :
    (swapPositions l i v).Perm l := by
  rw [List.perm_iff_count]
  intro x
  unfold swapPositions
  have hgdi : l.getD i "" = l[i] := List.getD_eq_getElem l "" hi
  have hgdv : l.getD v "" = l[v] := List.getD_eq_getElem l "" hv
  have hlen1 : i < (l.set v (l.getD i "")).length := by
    rw [List.length_set]
    exact hi
  rw [List.count_set _ _ _ _ hlen1, List.count_set _ _ _ _ hv]
  have hget : (l.set v (l.getD i ""))[i] = if v = i then l.getD i "" else l[i] :=
    List.getElem_set hlen1
  rw [hget, hgdi, hgdv]
  by_cases hiv : v = i
  · subst hiv
    simp only [if_pos rfl]
    by_cases hx : l[v] = x
    · have hpos : 0 < List.count x l := List.count_pos_iff.mpr (hx ▸ List.getElem_mem hv)
      simp [hx]
      omega
    · simp [hx, beq_eq_false_iff_ne.mpr hx]
  · simp only [if_neg hiv]
    by_cases hx1 : l[v] = x <;> by_cases hx2 : l[i] = x
    · have hpos : 0 < List.count x l := List.count_pos_iff.mpr (hx1 ▸ List.getElem_mem hv)
      simp [hx1, hx2]
      omega
    · have hpos : 0 < List.count x l := List.count_pos_iff.mpr (hx1 ▸ List.getElem_mem hv)
      simp [hx1, hx2, beq_eq_false_iff_ne.mpr hx2]
      omega
    · have hpos : 0 < List.count x l := List.count_pos_iff.mpr (hx2 ▸ List.getElem_mem hi)
      simp [hx1, hx2, beq_eq_false_iff_ne.mpr hx1]
    · simp [beq_eq_false_iff_ne.mpr hx1, beq_eq_false_iff_ne.mpr hx2]

theorem swapPositions_length (l : List String) (i v : Nat) :
    (swapPositions l i v).length = l.length := by
  unfold swapPositions
  simp [List.length_set]

theorem shuffleAux_perm : ∀ (p : List Nat) (i : Nat) (l : List String),
    (∀ v ∈ p, v < l.length) → i + p.length ≤ l.length →
    (shuffleAux p i l).Perm l := by
  intro p
  induction p with
  | nil =>
    intro i l _ _
    exact List.Perm.refl l
  | cons v rest ih =>
    intro i l hp hlen
    have hv : v < l.length := hp v (by simp)
    have hi : i < l.length := by
      simp only [List.length_cons] at hlen
      omega
    have hswap := swapPositions_perm l i v hi hv
    have hlen2 : (swapPositions l i v).length = l.length := swapPositions_length l i v
    refine List.Perm.trans ?_ hswap
    exact ih (i + 1) (swapPositions l i v)
      (fun w hw => by rw [hlen2]; exact hp w (by simp [hw]))
      (by rw [hlen2]; simp only [List.length_cons] at hlen; omega)

/-- Any run of the `shuffle` swap loop permutes its input, whenever the
swap targets are in range — which `mathrand.Perm(len(input))` guarantees. -/
theorem shuffle_perm (p : List Nat) (l : List String)
    (hp : ∀ v ∈ p, v < l.length) (hlen : p.length ≤ l.length) :
    (shuffle p l).Perm l :=
  shuffleAux_perm p 0 l hp (by omega)

/-- C4 amended: every expected sequence produced by challenge issuance is
a duplicate-free permutation of the canonical label set — the same
multiset every time — but the ordering is *not* uniformly distributed
over the `N!` permutations (see the counterexample theorem): the swap
loop applied to the uniform `mathrand.Perm` output is not a bijection. -/
theorem expected_sequence_permutation (p : List Nat)
    (hp : ∀ v ∈ p, v < Sequence.length) (hlen : p.length ≤ Sequence.length) :
    (shuffle p Sequence).Perm Sequence ∧ (shuffle p Sequence).Nodup := by
  have hperm := shuffle_perm p Sequence hp hlen
  exact ⟨hperm, hperm.nodup_iff.mpr (by decide)⟩

/-- Witness for `expected_sequence_permutation`. -/
theorem expected_sequence_permutation_witness :
    ((∀ v ∈ ([3, 1, 4, 0, 5, 2] : List Nat), v < Sequence.length) ∧
      ([3, 1, 4, 0, 5, 2] : List Nat).length ≤ Sequence.length) ∧
    (shuffle [3, 1, 4, 0, 5, 2] Sequence).Perm Sequence ∧
    (shuffle [3, 1, 4, 0, 5, 2] Sequence).Nodup :=
  ⟨⟨by decide, by decide⟩,
    expected_sequence_permutation [3, 1, 4, 0, 5, 2] (by decide) (by decide)⟩

set_option maxRecDepth 20000 in
/-- Counterexample to the uniformity part of C4: over the 720 equally
likely values of `mathrand.Perm(6)` (exactly the permutations of
`0, ..., 5`), the identity ordering is produced by 76 of them while the
ordering that merely swaps the first two labels is produced by only 16 —
the input-to-output map does not hit every permutation equally often.
Two concrete colliding inputs are included: both the identity and the
transposition `[1, 0, 2, 3, 4, 5]` map to the identity ordering. -/
theorem uniform_permutation_counterexample :
    (∀ p, p ∈ (List.range 6).permutations ↔ p.Perm (List.range 6)) ∧
    (List.range 6).permutations.countP
      (fun p => shuffle p Sequence == Sequence) = 76 ∧
    (List.range 6).permutations.countP
      (fun p => shuffle p Sequence == ["B", "A", "C", "D", "E", "F"]) = 16 ∧
    (76 : Nat) ≠ 16 ∧
    shuffle [0, 1, 2, 3, 4, 5] Sequence = Sequence ∧
    shuffle [1, 0, 2, 3, 4, 5] Sequence = Sequence ∧
    ([0, 1, 2, 3, 4, 5] : List Nat) ≠ [1, 0, 2, 3, 4, 5] := by
  refine ⟨fun p => List.mem_permutations, ?_, ?_, by decide, by decide, by decide,
    by decide⟩
  · rw [(List.permutations_perm_permutations' (List.range 6)).countP_eq]
    decide
  · rw [(List.permutations_perm_permutations' (List.range 6)).countP_eq]
    decide

/-! ### C8: keyframe timeline construction -/

/-- Counterexample to the offset formula of C8: the rule emitted for
position 1 of the canonical six-label sequence carries the integer
percentage `16` (the code truncates `float64(i)/float64(N)*100` with
`int(...)`), which differs from the exact offset `1/6 * 100 = 50/3`
claimed by the spec. -/
theorem keyframe_offset_counterexample :
    (keyframeLines Sequence "sessAAAA").getD 1 ""
      = "16% \x7b content: url(\x27/_csswaf/img/B?sid=sessAAAA\x27); \x7d" ∧
    ((16 : ℚ) ≠ specOffset 1 6) ∧
    specOffset 1 6 = 50 / 3 := by
  refine ⟨by decide, ?_, ?_⟩
  · unfold specOffset
    norm_num
  · unfold specOffset
    norm_num

/-- C8 amended: the animation block contains exactly `N` keyframe rules,
the rule for position `i` of the expected sequence carrying the truncated
percentage offset `i * 100 / N` (hence only approximately evenly spaced:
0, 16, 33, 50, 66, 83 for `N = 6`) and the fetch URL with the session id
and the label at expected-sequence position `i`; and the textual order of
the rules in the emitted stylesheet is an independent shuffle — for every
value `q` of the second random permutation, the emitted block is a
permutation of the per-position rules, decoupled from the offsets. -/
theorem keyframe_block (q : List Nat) (E : List String) (sid : String)
    (hq : ∀ v ∈ q, v < E.length) (hqlen : q.length ≤ E.length) :
    (keyframeLines E sid).length = E.length ∧
    (∀ i, i < E.length → (keyframeLines E sid).getD i ""
      = keyframeRule (i * 100 / E.length) (E.getD i "") sid) ∧
    (renderKeyframeBlock q E sid).Perm (keyframeLines E sid) := by
  have hlen : (keyframeLines E sid).length = E.length := by
    unfold keyframeLines
    simp
  refine ⟨hlen, ?_, ?_⟩
  · intro i hi
    have hi2 : i < (keyframeLines E sid).length := by omega
    rw [List.getD_eq_getElem _ _ hi2]
    unfold keyframeLines
    simp
  · unfold renderKeyframeBlock
    refine shuffle_perm q _ ?_ ?_
    · intro v hv
      rw [hlen]
      exact hq v hv
    · rw [hlen]
      exact hqlen

/-- Witness for `keyframe_block`. -/
theorem keyframe_block_witness :
    ((∀ v ∈ ([5, 3, 0, 1, 4, 2] : List Nat), v < Sequence.length) ∧
      ([5, 3, 0, 1, 4, 2] : List Nat).length ≤ Sequence.length) ∧
    (keyframeLines Sequence "sessAAAA").length = Sequence.length ∧
    (∀ i, i < Sequence.length → (keyframeLines Sequence "sessAAAA").getD i ""
      = keyframeRule (i * 100 / Sequence.length) (Sequence.getD i "") "sessAAAA") ∧
    (renderKeyframeBlock [5, 3, 0, 1, 4, 2] Sequence "sessAAAA").Perm
      (keyframeLines Sequence "sessAAAA") :=
  ⟨⟨by decide, by decide⟩,
    keyframe_block [5, 3, 0, 1, 4, 2] Sequence "sessAAAA" (by decide) (by decide)⟩

/-! ### C9: the read-modify-write of AddImageLoad is not atomic -/

/-- C9 evaluated at the failing schedule: `AddImageLoad` is (exactly) the
atomic cache `Get` followed by the rest of the body, with no lock held
across the two; under the serial schedule two fetches `A` then `B` for the
same session record `["A", "B"]`, but under the interleaved schedule
read-read-write-write — a legal execution, since only the individual
cache operations are atomic — the first label is silently lost and the
observed sequence ends as `["B"]`.  (The alternate revision in
`src/main.go` holds a mutex across the whole body, which forbids this
schedule.) -/
theorem addImageLoad_race_loses_label :
    (∀ (st : SessionTracker) (sessionID imageID : String) (now : Nat),
      st.AddImageLoad sessionID imageID now
        = SessionTracker.addImageLoadRest (st.addImageLoadRead sessionID now).2
            sessionID imageID (st.addImageLoadRead sessionID now).1 now) ∧
    ((runAdds ((NewSessionTracker 100).SetExpectedSequence "sessAAAA" Sequence 0)
        "sessAAAA" [("A", 1), ("B", 1)]).sequences "sessAAAA"
        = some (["A", "B"], 101)) ∧
    ((SessionTracker.addImageLoadRest
        (SessionTracker.addImageLoadRest
          ((((NewSessionTracker 100).SetExpectedSequence "sessAAAA" Sequence
            0).addImageLoadRead "sessAAAA" 1).2.addImageLoadRead "sessAAAA" 1).2
          "sessAAAA" "A"
          (((NewSessionTracker 100).SetExpectedSequence "sessAAAA" Sequence
            0).addImageLoadRead "sessAAAA" 1).1 1)
        "sessAAAA" "B"
        ((((NewSessionTracker 100).SetExpectedSequence "sessAAAA" Sequence
          0).addImageLoadRead "sessAAAA" 1).2.addImageLoadRead "sessAAAA" 1).1
        1).sequences "sessAAAA" = some (["B"], 101)) := by
  refine ⟨fun st sessionID imageID now => rfl, by decide, by decide⟩
